import Mathlib

/-!
Shallow embedding of `src/main.rs` of the `free_yt_music` repository.

Strings manipulated by the Rust code (titles, authors, file names) are
modelled as `List Char`; filesystem paths as lists of path components
(`List (List Char)`); the filesystem itself as explicit state (the lists of
existing directory paths and existing file paths).  Human-readable status
messages flowing over the status channel are modelled as Lean `String`s.

External effects (the yt-dlp subprocess, the oEmbed HTTP call, directory
creation in `download`) are modelled as oracle inputs recorded in a `JobEnv`
value: each field is the outcome the external world would produce for the
corresponding call.
-/

namespace FreeYtMusic

/-! ## Filename sanitizer (`sanitize_filename`, main.rs lines 106-119) -/

/-- The character class of the regex `[\x00-\x1F<>:"/\\|?*]` in
`sanitize_filename`: ASCII control characters and the nine reserved
filename characters. -/
def isInvalidChar (c : Char) : Bool :=
  c.toNat ≤ 31 || c = '<' || c = '>' || c = ':' || c = '"' || c = '/' ||
    c = '\\' || c = '|' || c = '?' || c = '*'

/-- Worker for `replace_all` of the regex `[...]+` by `"_"`: the flag
records whether the previous character belonged to the current invalid run
(in which case further invalid characters are absorbed into the same
single replacement underscore). -/
def collapseAux : Bool → List Char → List Char
  | _, [] => []
  | prevInv, c :: t =>
    if isInvalidChar c then
      if prevInv then collapseAux true t
      else '_' :: collapseAux true t
    else c :: collapseAux false t

/-- `invalid_chars.replace_all(name, "_")`: every maximal run of invalid
characters becomes a single underscore. -/
def collapseInvalid (l : List Char) : List Char := collapseAux false l

/-- The predicate of `trim_matches(|c| c == ' ' || c == '.')`. -/
def isTrimChar (c : Char) : Bool := c = ' ' || c = '.'

/-- `trim_matches` removing spaces and periods from both ends. -/
def trimEnds (l : List Char) : List Char :=
  ((l.dropWhile isTrimChar).reverse.dropWhile isTrimChar).reverse

/-- Rust `str::len()` is the UTF-8 byte length, not the character count. -/
def utf8Len (l : List Char) : Nat := (l.map Char.utf8Size).sum

/-- `sanitize_filename` (main.rs 106-119): replace runs of invalid
characters by `_`, trim spaces/periods from both ends, then if the UTF-8
byte length exceeds 32 keep the first 32 characters
(`cleaned.chars().take(32)`). -/
def sanitize_filename (l : List Char) : List Char :=
  let cleaned := trimEnds (collapseInvalid l)
  if 32 < utf8Len cleaned then cleaned.take 32 else cleaned

/-! ## Small Rust string helpers used by `move_audio_file` -/

/-- Rust `str::contains` with a `&str` pattern: substring test. -/
def containsSub : List Char → List Char → Bool
  | hay, needle =>
    needle.isPrefixOf hay ||
      match hay with
      | [] => false
      | _ :: t => containsSub t needle

/-- Rust `str::split(sep)`: splits on every occurrence of `sep`, keeping
empty pieces; the result is always non-empty (splitting the empty string
gives `[""]`). -/
def rustSplit (sep : Char) : List Char → List (List Char)
  | [] => [[]]
  | c :: t =>
    if c = sep then [] :: rustSplit sep t
    else
      match rustSplit sep t with
      | [] => [[c]]
      | h :: r => (c :: h) :: r

/-- `file_name.split('.').last().unwrap_or("mp3")` (main.rs 232, 240, 258,
268): the piece after the last dot; the `"mp3"` default is only reached if
`split` produced no piece at all. -/
def extOf (fileName : List Char) : List Char :=
  ((rustSplit '.' fileName).getLast?).getD ('m' :: 'p' :: '3' :: [])

/-- Fuel-driven decimal rendering of a natural number, least significant
digit last; mirrors Rust `format!("{}", counter)` for `usize`. -/
def natReprAux : Nat → Nat → List Char
  | 0, _ => []
  | fuel + 1, n =>
    if n < 10 then [Nat.digitChar n]
    else natReprAux fuel (n / 10) ++ [Nat.digitChar (n % 10)]

/-- Decimal rendering of a natural number (`format!("{}", n)`). -/
def natRepr (n : Nat) : List Char := natReprAux (n + 1) n

/-! ## Paths, the filesystem state, and the collision resolver -/

/-- A file or directory name: one path component. -/
abbrev Name := List Char

/-- A filesystem path, as the list of its components (`PathBuf`). -/
abbrev FsPath := List Name

/-- The filesystem as seen by `move_audio_file`: the set of existing
directory paths and the set of existing file paths, as finite lists.
`Path::exists` on a directory consults `dirs`; the existence checks on
candidate destination files consult `files`. -/
structure FSState where
  dirs : List FsPath
  files : List FsPath
deriving DecidableEq

/-- `format!("{}.{}", base, ext)`: the candidate file name before any
collision counter. -/
def plainFileName (base ext : Name) : Name := base ++ '.' :: ext

/-- `format!("{}_{}.{}", base, counter, ext)`: the candidate file name
carrying collision counter `k`. -/
def fileNameWith (base ext : Name) (k : Nat) : Name :=
  base ++ '_' :: (natRepr k ++ '.' :: ext)

/-- The `while new_dest_path.exists()` loop of `move_audio_file`
(main.rs 250-273): starting from candidate `cur` and counter `counter`,
while the current candidate exists build the candidate carrying the
current counter and increment the counter.  The Rust loop has no bound;
the `fuel` argument is the termination device of the embedding and is
instantiated with more fuel than the directory has files, which the
correctness theorem shows is always enough. -/
def collisionLoop (files : List FsPath) (dir : FsPath) (base ext : Name) :
    Nat → Nat → FsPath → FsPath
  | 0, _, cur => cur
  | fuel + 1, counter, cur =>
    if cur ∈ files then
      collisionLoop files dir base ext fuel (counter + 1)
        (dir ++ [fileNameWith base ext counter])
    else cur

/-- The collision resolver of `move_audio_file` (main.rs 244-273): if
`dir/base.ext` does not exist it is the destination; otherwise iterate the
counter loop starting at 1 from the existing plain candidate. -/
def resolveDest (files : List FsPath) (dir : FsPath) (base ext : Name) : FsPath :=
  let dest := dir ++ [plainFileName base ext]
  if dest ∈ files then
    collisionLoop files dir base ext (files.length + 2) 1 dest
  else dest

/-! ## Metadata and `move_audio_file` -/

/-- `VideoMetadata` (main.rs 47-51): the two fields parsed from the oEmbed
response. -/
structure VideoMetadata where
  title : Name
  author_name : Name
deriving DecidableEq

/-- The base-name choice of `move_audio_file` (main.rs 227-242): the
branch condition is `metadata.title.contains(metadata.author_name)` on the
RAW strings; the produced name uses the SANITIZED components. -/
def moveBaseName (md : VideoMetadata) : Name :=
  if containsSub md.title md.author_name then
    sanitize_filename md.title
  else
    sanitize_filename md.author_name ++ '-' :: sanitize_filename md.title

/-- The error string returned by `move_audio_file` when a destination
directory was missing (main.rs 210 and 220). -/
def dirErrMsg : String := "Error al crear el directorio de destino"

/-- `move_audio_file` (main.rs 201-283).  If the destination root does not
exist it is created (`create_dir_all` modelled as always succeeding) and
the function nevertheless returns the directory-creation error; the same
for the per-author subdirectory.  Otherwise the final path is computed by
the collision resolver and the file is copied then removed
(copy-then-delete, modelled as cons plus erase on the file list). -/
def move_audio_file (fs : FSState) (srcDir destDir : FsPath)
    (fileName : Name) (md : VideoMetadata) : FSState × Except String Unit :=
  if destDir ∉ fs.dirs then
    ({ fs with dirs := destDir :: fs.dirs }, Except.error dirErrMsg)
  else
    let destDir2 := destDir ++ [sanitize_filename md.author_name]
    if destDir2 ∉ fs.dirs then
      ({ fs with dirs := destDir2 :: fs.dirs }, Except.error dirErrMsg)
    else
      let sourcePath := srcDir ++ [fileName]
      let finalPath := resolveDest fs.files destDir2 (moveBaseName md) (extOf fileName)
      ({ fs with files := (finalPath :: fs.files).erase sourcePath }, Except.ok ())

/-! ## The `download` orchestration and the worker loop (main.rs 285-324 and
450-468)

External calls are modelled as oracle inputs: a `JobEnv` records the
outcome each external step would produce for this job. -/

/-- Outcome of running one job: normal success, an error value returned to
the worker loop, or a panic (an `unwrap` on an error, which kills the
worker task). -/
inductive Outcome where
  | ok : Outcome
  | err : String → Outcome
  | panic : String → Outcome
deriving DecidableEq

instance (α β : Type) [DecidableEq α] [DecidableEq β] : DecidableEq (Except α β)
  | Except.error a, Except.error b =>
    if h : a = b then isTrue (by rw [h]) else isFalse (by simp [h])
  | Except.error _, Except.ok _ => isFalse (by simp)
  | Except.ok _, Except.error _ => isFalse (by simp)
  | Except.ok a, Except.ok b =>
    if h : a = b then isTrue (by rw [h]) else isFalse (by simp [h])

/-- Oracle for the external effects of one `download` call:
whether `output/` and the destination root exist, whether
`create_dir_all` on them would succeed, and the results of
`download_audio`, `get_downloaded_file_name`, `get_metadata_video` and
`move_audio_file`. -/
structure JobEnv where
  outputDirExists : Bool
  outputDirCreateOk : Bool
  destDirExists : Bool
  destDirCreateOk : Bool
  downloadAudio : Except String Unit
  foundFile : Except String String
  metadata : Except String Unit
  moveResult : Except String Unit
deriving DecidableEq

/-- `download` (main.rs 285-324).  A failure to create `output/` or the
destination root prints to stderr and returns `Ok(())` (main.rs 291-301);
a `download_audio` error and a `get_downloaded_file_name` error are
returned as `Err`; a `get_metadata_video` error hits `.unwrap()`
(main.rs 309) and panics; a `move_audio_file` error is returned as
`Err`. -/
def download_model (env : JobEnv) : Outcome :=
  if !env.outputDirExists && !env.outputDirCreateOk then Outcome.ok
  else if !env.destDirExists && !env.destDirCreateOk then Outcome.ok
  else
    match env.downloadAudio with
    | Except.error e => Outcome.err e
    | Except.ok _ =>
      match env.foundFile with
      | Except.error e => Outcome.err e
      | Except.ok _ =>
        match env.metadata with
        | Except.error e => Outcome.panic e
        | Except.ok _ =>
          match env.moveResult with
          | Except.error e => Outcome.err e
          | Except.ok _ => Outcome.ok

/-- The status events sent on the status channel for one job by the worker
loop body (main.rs 454-464): `Descargando` before the call, then `Done` on
`Ok`, `Error` on `Err`, and nothing more if the job panicked. -/
def workerJobEvents (env : JobEnv) (url : String) : List String :=
  ("Descargando: " ++ url) ::
    match download_model env with
    | Outcome.ok => ["Done: " ++ url]
    | Outcome.err e => ["Error: " ++ url ++ " -> " ++ e]
    | Outcome.panic _ => []

/-- Whether the worker task survives the job (a panic aborts the task). -/
def workerAlive (env : JobEnv) : Bool :=
  match download_model env with
  | Outcome.panic _ => false
  | _ => true

/-- The worker loop (main.rs 450-468) run over a finite queue of URLs,
each paired with the oracle for its external effects: the concatenation of
the status events it sends, job after job, with the final shutdown event
when the queue closes normally, and an abrupt stop if a job panics. -/
def workerRun : List (String × JobEnv) → List String
  | [] => ["Worker: channel closed, exiting worker."]
  | (url, env) :: rest =>
    workerJobEvents env url ++ if workerAlive env then workerRun rest else []

/-! ## The UI submit path (main.rs 418-428 and 442) -/

/-- Capacity of the bounded work queue (`tokio_mpsc::channel::<String>(32)`,
main.rs 442). -/
def workQueueCapacity : Nat := 32

/-- Outcome of one enqueue call by the UI. -/
inductive SendOutcome where
  | sent : SendOutcome
  | blocked : SendOutcome
  | closedErr : SendOutcome
deriving DecidableEq

/-- Modelled semantics of `tokio::sync::mpsc::Sender::blocking_send` as
used at main.rs 422: returns `Err` only when the receiver is gone; when
the bounded queue has free capacity the value is sent; when the queue is
full the call BLOCKS the calling thread until capacity frees (it never
reports fullness to the caller). -/
def blockingSend (closed : Bool) (queueLen : Nat) : SendOutcome :=
  if closed then SendOutcome.closedErr
  else if queueLen < workQueueCapacity then SendOutcome.sent
  else SendOutcome.blocked

/-- Rust `str::trim`: whitespace removed from both ends. -/
def rustTrim (l : List Char) : List Char :=
  ((l.dropWhile Char.isWhitespace).reverse.dropWhile Char.isWhitespace).reverse

/-- The `KeyCode::Enter` branch of `run_ui` (main.rs 418-428): trim the
input; if non-empty, `blocking_send` it, pushing a `Queued:` line on `Ok`
and an `Error encolar URL:` line on `Err`.  The second component records
whether the UI thread blocked inside the send. -/
def submitInput (closed : Bool) (queueLen : Nat) (messages : List String)
    (input : List Char) : List String × Bool :=
  let trimmed := rustTrim input
  if trimmed = [] then (messages, false)
  else
    match blockingSend closed queueLen with
    | SendOutcome.sent => (messages ++ ["Queued: " ++ String.mk trimmed], false)
    | SendOutcome.closedErr =>
        (messages ++ ["Error encolar URL: channel closed"], false)
    | SendOutcome.blocked => (messages, true)

/-! ## The UI status history (main.rs 338-345) -/

/-- One drained status event (main.rs 340-344): push, then if the history
exceeds 300 lines drain the oldest `len - 300` lines from the front. -/
def pushStatus (ms : List String) (st : String) : List String :=
  let pushed := ms ++ [st]
  if 300 < pushed.length then pushed.drop (pushed.length - 300) else pushed

/-- The `while let Ok(st) = status_rx.try_recv()` drain loop (main.rs
338-345) over the batch of events available this tick. -/
def drainStatus (ms : List String) (events : List String) : List String :=
  events.foldl pushStatus ms

/-- The effect of one iteration of the UI render loop on the message
history: drain the pending status events (each capped), then possibly
append one locally-produced line from the Enter branch (`Queued:` or
`Error encolar URL:`, main.rs 423-424), which is pushed WITHOUT cap
enforcement. -/
def uiIterationMessages (ms : List String) (events : List String)
    (localLine : Option String) : List String :=
  let d := drainStatus ms events
  match localLine with
  | none => d
  | some m => d ++ [m]

/-! ## Auxiliary definitions for the verification -/

/-- Modelled from the spec: the base-name rule as §4.2 of the spec states
it, with the containment test performed on the SANITIZED title and author
("if the sanitized title already contains the sanitized author as a
substring").  Stated only for comparison with `moveBaseName`, which embeds
the source. -/
def specBaseName (md : VideoMetadata) : Name :=
  if containsSub (sanitize_filename md.title) (sanitize_filename md.author_name) then
    sanitize_filename md.title
  else
    sanitize_filename md.author_name ++ '-' :: sanitize_filename md.title

/-- A job environment in which every external step succeeds. -/
def envAllOk : JobEnv :=
  { outputDirExists := true
    outputDirCreateOk := true
    destDirExists := true
    destDirCreateOk := true
    downloadAudio := Except.ok ()
    foundFile := Except.ok "f.mp3"
    metadata := Except.ok ()
    moveResult := Except.ok () }

/-- A job environment in which only the metadata fetch fails. -/
def envMetaFail : JobEnv := { envAllOk with metadata := Except.error "HTTP error: 404" }

/-- A job environment in which the scratch directory is missing and its
creation fails. -/
def envDirFail : JobEnv :=
  { envAllOk with outputDirExists := false, outputDirCreateOk := false }

/-- A job environment in which only the yt-dlp subprocess fails. -/
def envDlFail : JobEnv :=
  { envAllOk with downloadAudio := Except.error "yt-dlp exit 1" }

/-- Decode helper for the decimal rendering, least significant digit
first. -/
def decodeDigitsRev : List Char → Nat
  | [] => 0
  | c :: t => (c.toNat - 48) + 10 * decodeDigitsRev t

/-- Decode a decimal rendering back to the natural number it denotes. -/
def decodeDigits (l : List Char) : Nat := decodeDigitsRev l.reverse

/-! ## Theorems -/

/-- C10: there is an input longer than 32 characters on which
`sanitize_filename` returns an output ending in a period (or a space):
trimming happens before truncation, so truncation can re-expose a
trailing period. -/
theorem C10_truncation_can_leave_trailing_period :
    ∃ l : List Char, 32 < l.length ∧
      ((sanitize_filename l).getLast? = some '.' ∨
        (sanitize_filename l).getLast? = some ' ') :=
  ⟨List.replicate 31 'a' ++ '.' :: List.replicate 5 'a', by decide⟩

/-- C6 (failing input): for the extensionless file name `"song"` the code
takes the whole name as the extension (the last piece of `split('.')` is
the full string), so the claimed `"mp3"` default is never produced. -/
theorem C6_extensionless_name_not_mp3 :
    extOf ("song".toList) = "song".toList ∧
      extOf ("song".toList) ≠ "mp3".toList := by
  decide

/-- C5 (counterexample): for title `"A_B song"` and author `"A/B"` the
source's base name (raw-string containment test) differs from the base
name the claim describes (containment test on the sanitized strings). -/
theorem C5_raw_vs_sanitized_containment :
    moveBaseName ⟨"A_B song".toList, "A/B".toList⟩ ≠
      specBaseName ⟨"A_B song".toList, "A/B".toList⟩ := by
  decide

/-- C5 (amended): the base name is chosen by testing whether the RAW title
contains the RAW author as a substring; if so the base name is the
sanitized title alone, otherwise the sanitized author, a hyphen, and the
sanitized title. -/
theorem C5_base_name_choice (md : VideoMetadata) :
    (containsSub md.title md.author_name = true →
      moveBaseName md = sanitize_filename md.title) ∧
    (containsSub md.title md.author_name = false →
      moveBaseName md =
        sanitize_filename md.author_name ++ '-' :: sanitize_filename md.title) := by
  constructor
  · intro h
    simp [moveBaseName, h]
  · intro h
    simp [moveBaseName, h]

/-- C5 witness: the title-contains-author case at `author="Artist"`,
`title="Artist - Song"`. -/
theorem C5_base_name_choice_witness :
    containsSub "Artist - Song".toList "Artist".toList = true ∧
      moveBaseName ⟨"Artist - Song".toList, "Artist".toList⟩ =
        sanitize_filename "Artist - Song".toList :=
  ⟨by decide,
    (C5_base_name_choice ⟨"Artist - Song".toList, "Artist".toList⟩).1 (by decide)⟩

/-- C2 (counterexample): with the work queue at its capacity of 32 and the
channel open, the Enter branch blocks the UI thread inside `blocking_send`
(second component `true`) and pushes no status line; no `QueueFull`
indication exists and the URL is not dropped. -/
theorem C2_full_queue_blocks :
    submitInput false workQueueCapacity [] ("u".toList) = ([], true) ∧
      blockingSend false workQueueCapacity = SendOutcome.blocked := by
  decide

/-- C2 (amended): the UI enqueue uses `blocking_send`: with the channel
closed it pushes an enqueue-error line; with free capacity it sends and
pushes a `Queued:` line; with the queue at capacity it blocks the UI
thread, pushing nothing and dropping nothing. -/
theorem C2_submit_behaviour (closed : Bool) (queueLen : Nat)
    (messages : List String) (input : List Char) (hne : rustTrim input ≠ []) :
    (closed = true →
      submitInput closed queueLen messages input =
        (messages ++ ["Error encolar URL: channel closed"], false)) ∧
    (closed = false → queueLen < workQueueCapacity →
      submitInput closed queueLen messages input =
        (messages ++ ["Queued: " ++ String.mk (rustTrim input)], false)) ∧
    (closed = false → workQueueCapacity ≤ queueLen →
      submitInput closed queueLen messages input = (messages, true)) := by
  refine ⟨?_, ?_, ?_⟩
  · intro h
    simp [submitInput, blockingSend, h, hne]
  · intro h hlt
    simp [submitInput, blockingSend, h, hne, hlt]
  · intro h hge
    simp [submitInput, blockingSend, h, hne, Nat.not_lt.mpr hge]

/-- C2 witness: a submit on an open, non-full queue pushes the `Queued:`
line. -/
theorem C2_submit_behaviour_witness :
    rustTrim ("u".toList) ≠ [] ∧
      submitInput false 0 [] ("u".toList) =
        (["Queued: " ++ String.mk (rustTrim "u".toList)], false) :=
  ⟨by decide, (C2_submit_behaviour false 0 [] "u".toList (by decide)).2.1 rfl (by decide)⟩

/-- One capped push is exactly "keep the most recent 300 of the pushed
list" (in `Nat` subtraction the no-overflow case drops nothing). -/
theorem pushStatus_eq_keepLast (ms : List String) (st : String) :
    pushStatus ms st = (ms ++ [st]).drop ((ms ++ [st]).length - 300) := by
  by_cases h : 300 < (ms ++ [st]).length
  · simp only [pushStatus, if_pos h]
  · have h0 : (ms ++ [st]).length - 300 = 0 := by omega
    simp only [pushStatus, if_neg h, h0, List.drop_zero]

/-- Keeping the most recent 300 twice is keeping them once. -/
theorem keepLast_append (x y : List String) :
    ((x.drop (x.length - 300)) ++ y).drop
        (((x.drop (x.length - 300)) ++ y).length - 300) =
      (x ++ y).drop ((x ++ y).length - 300) := by
  by_cases h : x.length ≤ 300
  · have h0 : x.length - 300 = 0 := by omega
    simp [h0]
  · have ha : x.length - 300 ≤ x.length := Nat.sub_le _ _
    rw [← List.drop_append_of_le_length ha, List.drop_drop]
    have he : (x.length - 300) + (((x ++ y).drop (x.length - 300)).length - 300) =
        (x ++ y).length - 300 := by
      simp only [List.length_drop, List.length_append]
      omega
    rw [he]

/-- Draining a non-empty batch of status events leaves exactly the most
recent 300 lines of the old history followed by the batch. -/
theorem drainStatus_eq_keepLast (events : List String) (ms : List String)
    (hne : events ≠ []) :
    drainStatus ms events = (ms ++ events).drop ((ms ++ events).length - 300) := by
  induction events generalizing ms with
  | nil => exact absurd rfl hne
  | cons e es ih =>
    show drainStatus (pushStatus ms e) es = _
    cases es with
    | nil =>
      show pushStatus ms e = _
      exact pushStatus_eq_keepLast ms e
    | cons f fs =>
      rw [ih (pushStatus ms e) (by simp), pushStatus_eq_keepLast,
        keepLast_append (ms ++ [e]) (f :: fs), List.append_assoc]
      rfl

/-- C9 (counterexample): an iteration that drains no status event but
pushes the local `Queued:` line from the Enter branch grows a full
300-line history to 301 lines, violating the claimed loop invariant. -/
theorem C9_local_push_exceeds_cap :
    (List.replicate 300 "x").length ≤ 300 ∧
      300 < (uiIterationMessages (List.replicate 300 "x") [] (some "Queued: u")).length := by
  constructor
  · rw [List.length_replicate]
  · have h : uiIterationMessages (List.replicate 300 "x") [] (some "Queued: u") =
        List.replicate 300 "x" ++ ["Queued: u"] := rfl
    rw [h, List.length_append, List.length_replicate, List.length_singleton]
    omega

/-- C9 (amended): the 300-line cap is enforced only by the status-event
drain: after draining at least one status event the history is exactly the
most recent 300 lines (oldest dropped first) and is at most 300 lines
long; an iteration that pushes no local line preserves the bound, but a
local `Queued:`/enqueue-error push is not capped. -/
theorem C9_history_cap (ms events : List String) :
    (events ≠ [] →
      drainStatus ms events = (ms ++ events).drop ((ms ++ events).length - 300) ∧
        (drainStatus ms events).length ≤ 300) ∧
    (ms.length ≤ 300 → (uiIterationMessages ms events none).length ≤ 300) := by
  constructor
  · intro hne
    refine ⟨drainStatus_eq_keepLast events ms hne, ?_⟩
    rw [drainStatus_eq_keepLast events ms hne]
    simp only [List.length_drop]
    omega
  · intro hle
    show (drainStatus ms events).length ≤ 300
    cases events with
    | nil => exact hle
    | cons e es =>
      rw [drainStatus_eq_keepLast _ _ (by simp)]
      simp only [List.length_drop]
      omega

/-- C9 witness: a drain of one event on an empty history keeps at most 300
lines, as does the iteration with no local push. -/
theorem C9_history_cap_witness :
    (drainStatus ([] : List String) ["a"]).length ≤ 300 ∧
      (uiIterationMessages ([] : List String) ["a"] none).length ≤ 300 :=
  ⟨((C9_history_cap [] ["a"]).1 (by decide)).2, (C9_history_cap [] ["a"]).2 (by decide)⟩

/-- C7 (counterexample): with the destination root missing, the job is
aborted with the directory-creation error even though the directory was
created successfully (it is present in the resulting filesystem state),
contradicting "aborted only when creating a missing directory actually
fails". -/
theorem C7_abort_despite_successful_create :
    (move_audio_file ⟨[], []⟩ [['s']] [['d']] "f.mp3".toList
        ⟨"T".toList, "A".toList⟩).2 = Except.error dirErrMsg ∧
      [['d']] ∈ (move_audio_file ⟨[], []⟩ [['s']] [['d']] "f.mp3".toList
        ⟨"T".toList, "A".toList⟩).1.dirs := by
  decide

/-- C7 (amended): if the destination root is missing, `move_audio_file`
creates it and aborts with the directory-creation error even though
creation succeeded; the same for the author subdirectory; only when both
directories already exist does it resolve the final path and copy then
delete the source file, succeeding. -/
theorem C7_relocation_behaviour (fs : FSState) (src dest : FsPath)
    (fn : Name) (md : VideoMetadata) :
    (dest ∉ fs.dirs →
      move_audio_file fs src dest fn md =
        ({ fs with dirs := dest :: fs.dirs }, Except.error dirErrMsg)) ∧
    (dest ∈ fs.dirs → dest ++ [sanitize_filename md.author_name] ∉ fs.dirs →
      move_audio_file fs src dest fn md =
        ({ fs with dirs := (dest ++ [sanitize_filename md.author_name]) :: fs.dirs },
          Except.error dirErrMsg)) ∧
    (dest ∈ fs.dirs → dest ++ [sanitize_filename md.author_name] ∈ fs.dirs →
      (move_audio_file fs src dest fn md).2 = Except.ok () ∧
        (move_audio_file fs src dest fn md).1.files =
          (resolveDest fs.files (dest ++ [sanitize_filename md.author_name])
              (moveBaseName md) (extOf fn) :: fs.files).erase (src ++ [fn]) ∧
        (move_audio_file fs src dest fn md).1.dirs = fs.dirs) := by
  refine ⟨?_, ?_, ?_⟩
  · intro h
    rw [move_audio_file, if_pos h]
  · intro h1 h2
    rw [move_audio_file, if_neg (not_not_intro h1)]
    show (if _ ∉ fs.dirs then _ else _) = _
    rw [if_pos h2]
  · intro h1 h2
    have he : move_audio_file fs src dest fn md =
        ({ fs with files := (resolveDest fs.files
              (dest ++ [sanitize_filename md.author_name]) (moveBaseName md)
              (extOf fn) :: fs.files).erase (src ++ [fn]) }, Except.ok ()) := by
      rw [move_audio_file, if_neg (not_not_intro h1)]
      show (if _ ∉ fs.dirs then _ else _) = _
      rw [if_neg (not_not_intro h2)]
    rw [he]
    exact ⟨rfl, rfl, rfl⟩

/-- C7 witness: with both directories present, the relocation succeeds. -/
theorem C7_relocation_behaviour_witness :
    (move_audio_file ⟨[[['d']], [['d'], ['A']]], []⟩ [['s']] [['d']]
        "f.mp3".toList ⟨"T".toList, "A".toList⟩).2 = Except.ok () :=
  ((C7_relocation_behaviour ⟨[[['d']], [['d'], ['A']]], []⟩ [['s']] [['d']]
      "f.mp3".toList ⟨"T".toList, "A".toList⟩).2.2 (by decide) (by decide)).1

/-- C1 (counterexample): a metadata failure is NOT converted to a status
event — the worker panics, emits no terminal event for the job, and never
processes the next queued URL; and a failure to create the scratch
directory is reported as success (`Done`). -/
theorem C1_uncaught_failures :
    envMetaFail.metadata = Except.error "HTTP error: 404" ∧
      workerRun [("u1", envMetaFail), ("u2", envAllOk)] = ["Descargando: u1"] ∧
      envDirFail.outputDirExists = false ∧
      envDirFail.outputDirCreateOk = false ∧
      workerRun [("u1", envDirFail)] =
        ["Descargando: u1", "Done: u1", "Worker: channel closed, exiting worker."] := by
  decide

/-- C1 (amended): a `download_audio` failure, a missing downloaded file
and a `move_audio_file` failure are each converted to a status-event
string and the worker proceeds to the next queued URL; but a failure to
create the scratch or destination directory makes `download` return
`Ok(())`, reported as `Done` (success), and a metadata failure panics the
worker — it escapes the job boundary: no terminal event is emitted and no
further URL is processed. -/
theorem C1_worker_failure_handling (env : JobEnv) (url : String)
    (rest : List (String × JobEnv)) :
    ((!env.outputDirExists && !env.outputDirCreateOk) = true ∨
        (!env.destDirExists && !env.destDirCreateOk) = true →
      download_model env = Outcome.ok ∧
        workerRun ((url, env) :: rest) =
          ("Descargando: " ++ url) :: ("Done: " ++ url) :: workerRun rest) ∧
    (∀ e, (!env.outputDirExists && !env.outputDirCreateOk) = false →
        (!env.destDirExists && !env.destDirCreateOk) = false →
        env.downloadAudio = Except.error e →
      download_model env = Outcome.err e ∧
        workerRun ((url, env) :: rest) =
          ("Descargando: " ++ url) :: ("Error: " ++ url ++ " -> " ++ e) ::
            workerRun rest) ∧
    (∀ e, (!env.outputDirExists && !env.outputDirCreateOk) = false →
        (!env.destDirExists && !env.destDirCreateOk) = false →
        env.downloadAudio = Except.ok () → env.foundFile = Except.error e →
      download_model env = Outcome.err e ∧
        workerRun ((url, env) :: rest) =
          ("Descargando: " ++ url) :: ("Error: " ++ url ++ " -> " ++ e) ::
            workerRun rest) ∧
    (∀ e f, (!env.outputDirExists && !env.outputDirCreateOk) = false →
        (!env.destDirExists && !env.destDirCreateOk) = false →
        env.downloadAudio = Except.ok () → env.foundFile = Except.ok f →
        env.metadata = Except.error e →
      download_model env = Outcome.panic e ∧
        workerRun ((url, env) :: rest) = [("Descargando: " ++ url)]) ∧
    (∀ e f, (!env.outputDirExists && !env.outputDirCreateOk) = false →
        (!env.destDirExists && !env.destDirCreateOk) = false →
        env.downloadAudio = Except.ok () → env.foundFile = Except.ok f →
        env.metadata = Except.ok () → env.moveResult = Except.error e →
      download_model env = Outcome.err e ∧
        workerRun ((url, env) :: rest) =
          ("Descargando: " ++ url) :: ("Error: " ++ url ++ " -> " ++ e) ::
            workerRun rest) ∧
    (∀ f, (!env.outputDirExists && !env.outputDirCreateOk) = false →
        (!env.destDirExists && !env.destDirCreateOk) = false →
        env.downloadAudio = Except.ok () → env.foundFile = Except.ok f →
        env.metadata = Except.ok () → env.moveResult = Except.ok () →
      download_model env = Outcome.ok ∧
        workerRun ((url, env) :: rest) =
          ("Descargando: " ++ url) :: ("Done: " ++ url) :: workerRun rest) := by
  refine ⟨?_, ?_, ?_, ?_, ?_, ?_⟩
  · intro h
    have hdm : download_model env = Outcome.ok := by
      rcases h with h | h
      · simp [download_model, h]
      · by_cases h1 : (!env.outputDirExists && !env.outputDirCreateOk) = true
        · simp [download_model, h1]
        · simp [download_model, eq_false_of_ne_true h1, h]
    exact ⟨hdm, by simp [workerRun, workerJobEvents, workerAlive, hdm]⟩
  · intro e h1 h2 hd
    have hdm : download_model env = Outcome.err e := by
      simp [download_model, h1, h2, hd]
    exact ⟨hdm, by simp [workerRun, workerJobEvents, workerAlive, hdm]⟩
  · intro e h1 h2 hd hf
    have hdm : download_model env = Outcome.err e := by
      simp [download_model, h1, h2, hd, hf]
    exact ⟨hdm, by simp [workerRun, workerJobEvents, workerAlive, hdm]⟩
  · intro e f h1 h2 hd hf hm
    have hdm : download_model env = Outcome.panic e := by
      simp [download_model, h1, h2, hd, hf, hm]
    exact ⟨hdm, by simp [workerRun, workerJobEvents, workerAlive, hdm]⟩
  · intro e f h1 h2 hd hf hm hv
    have hdm : download_model env = Outcome.err e := by
      simp [download_model, h1, h2, hd, hf, hm, hv]
    exact ⟨hdm, by simp [workerRun, workerJobEvents, workerAlive, hdm]⟩
  · intro f h1 h2 hd hf hm hv
    have hdm : download_model env = Outcome.ok := by
      simp [download_model, h1, h2, hd, hf, hm, hv]
    exact ⟨hdm, by simp [workerRun, workerJobEvents, workerAlive, hdm]⟩

/-- C1 witness: a subprocess failure is converted to an `Error:` status
event and the worker keeps running (the shutdown event of the empty
remaining queue follows). -/
theorem C1_worker_failure_handling_witness :
    download_model envDlFail = Outcome.err "yt-dlp exit 1" ∧
      workerRun [("u", envDlFail)] =
        ("Descargando: " ++ "u") :: ("Error: " ++ "u" ++ " -> " ++ "yt-dlp exit 1") ::
          workerRun [] :=
  (C1_worker_failure_handling envDlFail "u" []).2.1 "yt-dlp exit 1"
    (by decide) (by decide) (by decide)

/-- C8 (counterexample): a fully successful job sends exactly two status
events (`Descargando` and `Done`), not one event per transition of the
five-transition success path of the claimed state machine. -/
theorem C8_two_events_not_five :
    workerJobEvents envAllOk "u" = ["Descargando: u", "Done: u"] ∧
      (workerJobEvents envAllOk "u").length = 2 ∧
      (workerJobEvents envAllOk "u").length ≠ 5 := by
  decide

/-- C8 (amended): each job emits a `Descargando` event followed by exactly
one terminal event — `Done` on success, `Error` on a caught failure — and
no terminal event at all when the job panics; the status stream observed
by the UI is the concatenation of the jobs' event lists in queue order. -/
theorem C8_job_event_sequence (env : JobEnv) (url : String)
    (rest : List (String × JobEnv)) :
    (download_model env = Outcome.ok →
      workerJobEvents env url = ["Descargando: " ++ url, "Done: " ++ url]) ∧
    (∀ e, download_model env = Outcome.err e →
      workerJobEvents env url =
        ["Descargando: " ++ url, "Error: " ++ url ++ " -> " ++ e]) ∧
    (∀ e, download_model env = Outcome.panic e →
      workerJobEvents env url = ["Descargando: " ++ url]) ∧
    workerRun ((url, env) :: rest) =
      workerJobEvents env url ++ (if workerAlive env then workerRun rest else []) := by
  refine ⟨?_, ?_, ?_, rfl⟩
  · intro h
    simp [workerJobEvents, h]
  · intro e h
    simp [workerJobEvents, h]
  · intro e h
    simp [workerJobEvents, h]

/-- C8 witness: the successful job emits the two events in order. -/
theorem C8_job_event_sequence_witness :
    workerJobEvents envAllOk "u" = ["Descargando: " ++ "u", "Done: " ++ "u"] :=
  (C8_job_event_sequence envAllOk "u" []).1 (by decide)

/-- Unfolded form of `sanitize_filename`. -/
theorem sanitize_filename_eq (l : List Char) :
    sanitize_filename l =
      if 32 < utf8Len (trimEnds (collapseInvalid l)) then
        (trimEnds (collapseInvalid l)).take 32
      else trimEnds (collapseInvalid l) := rfl

/-- No character produced by the replacement pass is invalid: invalid
characters are replaced by `_`, valid ones are kept. -/
theorem collapseAux_no_invalid :
    ∀ (l : List Char) (prev : Bool), ∀ c ∈ collapseAux prev l, isInvalidChar c = false := by
  intro l
  induction l with
  | nil =>
    intro prev c hc
    simp [collapseAux] at hc
  | cons x t ih =>
    intro prev c hc
    by_cases hx : isInvalidChar x = true
    · cases prev with
      | true =>
        rw [collapseAux, if_pos hx, if_pos rfl] at hc
        exact ih true c hc
      | false =>
        rw [collapseAux, if_pos hx, if_neg (by simp)] at hc
        rcases List.mem_cons.mp hc with h | h
        · subst h
          decide
        · exact ih true c h
    · rw [collapseAux, if_neg hx] at hc
      rcases List.mem_cons.mp hc with h | h
      · subst h
        exact eq_false_of_ne_true hx
      · exact ih false c h

/-- Characters of the trimmed list come from the original list. -/
theorem mem_trimEnds {c : Char} {l : List Char} (h : c ∈ trimEnds l) : c ∈ l := by
  unfold trimEnds at h
  rw [List.mem_reverse] at h
  have h1 : c ∈ (l.dropWhile isTrimChar).reverse :=
    List.Sublist.mem h (List.dropWhile_sublist _)
  rw [List.mem_reverse] at h1
  exact List.Sublist.mem h1 (List.dropWhile_sublist _)

/-- A character list is at most as long as its UTF-8 byte length. -/
theorem length_le_utf8Len (l : List Char) : l.length ≤ utf8Len l := by
  induction l with
  | nil => simp [utf8Len]
  | cons c t ih =>
    have hc := Char.utf8Size_pos c
    unfold utf8Len at ih ⊢
    simp only [List.map_cons, List.sum_cons, List.length_cons]
    omega

/-- The head surviving `dropWhile` does not satisfy the predicate. -/
theorem head?_dropWhile_not (p : Char → Bool) :
    ∀ (l : List Char) (c : Char), (l.dropWhile p).head? = some c → p c = false := by
  intro l
  induction l with
  | nil =>
    intro c hc
    simp at hc
  | cons x t ih =>
    intro c hc
    rw [List.dropWhile_cons] at hc
    by_cases hx : p x = true
    · rw [if_pos hx] at hc
      exact ih c hc
    · rw [if_neg hx] at hc
      have : x = c := by simpa using hc
      subst this
      exact eq_false_of_ne_true hx

/-- `dropWhile` keeps the last element, as long as anything survives. -/
theorem getLast?_dropWhile (p : Char → Bool) :
    ∀ (l : List Char), l.dropWhile p ≠ [] → (l.dropWhile p).getLast? = l.getLast? := by
  intro l
  induction l with
  | nil =>
    intro h
    simp at h
  | cons x t ih =>
    intro h
    rw [List.dropWhile_cons] at h ⊢
    by_cases hx : p x = true
    · rw [if_pos hx] at h ⊢
      rw [ih h]
      cases t with
      | nil => exact absurd (by simp) h
      | cons y u => rw [List.getLast?_cons_cons]
    · rw [if_neg hx]

/-- The trimmed list does not start with a space or a period. -/
theorem trimEnds_head {l : List Char} {c : Char}
    (h : (trimEnds l).head? = some c) : isTrimChar c = false := by
  unfold trimEnds at h
  rw [List.head?_reverse] at h
  have hne : List.dropWhile isTrimChar ((l.dropWhile isTrimChar).reverse) ≠ [] := by
    intro h0
    rw [h0] at h
    simp at h
  rw [getLast?_dropWhile _ _ hne, List.getLast?_reverse] at h
  exact head?_dropWhile_not isTrimChar l c h

/-- The trimmed list does not end with a space or a period. -/
theorem trimEnds_getLast {l : List Char} {c : Char}
    (h : (trimEnds l).getLast? = some c) : isTrimChar c = false := by
  unfold trimEnds at h
  rw [List.getLast?_reverse] at h
  exact head?_dropWhile_not isTrimChar _ c h

/-- In absorbing state, a run of invalid characters produces nothing and
the state resets on the first valid character. -/
theorem collapseAux_true_skip :
    ∀ (r b : List Char), (∀ c ∈ r, isInvalidChar c = true) →
      (∀ c, b.head? = some c → isInvalidChar c = false) →
      collapseAux true (r ++ b) = collapseAux false b := by
  intro r
  induction r with
  | nil =>
    intro b _ hb
    cases b with
    | nil => rfl
    | cons y u =>
      have hy : isInvalidChar y = false := hb y rfl
      simp [collapseAux, hy]
  | cons x r₂ ih =>
    intro b hall hb
    have hx : isInvalidChar x = true := hall x (by simp)
    rw [List.cons_append, collapseAux, if_pos hx, if_pos rfl]
    exact ih b (fun c hc => hall c (by simp [hc])) hb

/-- From neutral state, a non-empty run of invalid characters followed by
a non-invalid boundary produces exactly one underscore. -/
theorem collapseAux_run (r b : List Char) (hr : r ≠ [])
    (hall : ∀ c ∈ r, isInvalidChar c = true)
    (hb : ∀ c, b.head? = some c → isInvalidChar c = false) :
    collapseAux false (r ++ b) = '_' :: collapseAux false b := by
  cases r with
  | nil => exact absurd rfl hr
  | cons x r₂ =>
    have hx : isInvalidChar x = true := hall x (by simp)
    rw [List.cons_append, collapseAux, if_pos hx, if_neg (by simp)]
    rw [collapseAux_true_skip r₂ b (fun c hc => hall c (by simp [hc])) hb]

/-- The replacement pass distributes over an append whose left part ends
in a non-invalid character. -/
theorem collapseAux_append :
    ∀ (a : List Char) (ha : a ≠ []), isInvalidChar (a.getLast ha) = false →
      ∀ (rest : List Char) (prev : Bool),
        collapseAux prev (a ++ rest) = collapseAux prev a ++ collapseAux false rest := by
  intro a
  induction a with
  | nil =>
    intro ha
    exact absurd rfl ha
  | cons x t ih =>
    intro ha hlast rest prev
    cases t with
    | nil =>
      have hx : isInvalidChar x = false := by simpa using hlast
      simp [collapseAux, hx]
    | cons y u =>
      have ht : (y :: u) ≠ [] := List.cons_ne_nil y u
      have hlast₂ : isInvalidChar ((y :: u).getLast ht) = false := by
        rw [← List.getLast_cons ht]
        exact hlast
      by_cases hx : isInvalidChar x = true
      · cases prev with
        | true =>
          rw [List.cons_append, collapseAux, if_pos hx, if_pos rfl,
            collapseAux, if_pos hx, if_pos rfl]
          exact ih ht hlast₂ rest true
        | false =>
          rw [List.cons_append, collapseAux, if_pos hx, if_neg (by simp),
            collapseAux, if_pos hx, if_neg (by simp)]
          exact congrArg (List.cons '_') (ih ht hlast₂ rest true)
      · rw [List.cons_append, collapseAux, if_neg hx, collapseAux, if_neg hx]
        exact congrArg (List.cons x) (ih ht hlast₂ rest false)

/-- Helper: a non-invalid character is neither a control character
(U+0000 to U+001F) nor one of the nine reserved characters. -/
theorem isInvalidChar_false_elim {c : Char} (h : isInvalidChar c = false) :
    ¬ c.toNat ≤ 31 ∧ c ∉ (['<', '>', ':', '"', '/', '\\', '|', '?', '*'] : List Char) := by
  constructor
  · intro hle
    have hi : isInvalidChar c = true := by simp [isInvalidChar, hle]
    rw [hi] at h
    exact Bool.noConfusion h
  · intro hmem
    have hi : isInvalidChar c = true := by
      fin_cases hmem <;> decide
    rw [hi] at h
    exact Bool.noConfusion h

/-- C4: the sanitizer output contains no invalid character (no control
character U+0000 to U+001F and none of the nine reserved characters), has
at most 32 characters, the intermediate trimmed string neither starts nor
ends with a space or period, and every maximal run of invalid characters
collapses to a single underscore. -/
theorem C4_sanitizer_properties (l : List Char) :
    (∀ c ∈ sanitize_filename l, isInvalidChar c = false) ∧
    (∀ c ∈ sanitize_filename l, ¬ c.toNat ≤ 31 ∧
      c ∉ (['<', '>', ':', '"', '/', '\\', '|', '?', '*'] : List Char)) ∧
    (sanitize_filename l).length ≤ 32 ∧
    (∀ c, (trimEnds (collapseInvalid l)).head? = some c → isTrimChar c = false) ∧
    (∀ c, (trimEnds (collapseInvalid l)).getLast? = some c → isTrimChar c = false) ∧
    (∀ a r b, l = a ++ r ++ b → r ≠ [] →
      (∀ c ∈ r, isInvalidChar c = true) →
      (∀ h : a ≠ [], isInvalidChar (a.getLast h) = false) →
      (∀ c, b.head? = some c → isInvalidChar c = false) →
      collapseInvalid l = collapseInvalid a ++ '_' :: collapseInvalid b) := by
  have hmem : ∀ c ∈ sanitize_filename l, isInvalidChar c = false := by
    intro c hc
    rw [sanitize_filename_eq] at hc
    have hcc : c ∈ trimEnds (collapseInvalid l) := by
      by_cases h32 : 32 < utf8Len (trimEnds (collapseInvalid l))
      · rw [if_pos h32] at hc
        exact List.Sublist.mem hc (List.take_sublist 32 _)
      · rw [if_neg h32] at hc
        exact hc
    exact collapseAux_no_invalid l false c (mem_trimEnds hcc)
  refine ⟨hmem, ?_, ?_, ?_, ?_, ?_⟩
  · intro c hc
    exact isInvalidChar_false_elim (hmem c hc)
  · rw [sanitize_filename_eq]
    by_cases h32 : 32 < utf8Len (trimEnds (collapseInvalid l))
    · rw [if_pos h32]
      exact List.length_take_le 32 _
    · rw [if_neg h32]
      have := length_le_utf8Len (trimEnds (collapseInvalid l))
      omega
  · intro c hc
    exact trimEnds_head hc
  · intro c hc
    exact trimEnds_getLast hc
  · intro a r b hl hr hall hA hB
    subst hl
    unfold collapseInvalid
    by_cases ha : a = []
    · subst ha
      simp only [List.nil_append]
      rw [collapseAux_run r b hr hall hB]
      rfl
    · rw [List.append_assoc, collapseAux_append a ha (hA ha) (r ++ b) false,
        collapseAux_run r b hr hall hB]

/-- C4 witness: on `"ab<<>cd"` the run `<<>` collapses to one underscore
and the sanitized output is `"ab_cd"`. -/
theorem C4_sanitizer_properties_witness :
    sanitize_filename ("ab<<>cd".toList) = "ab_cd".toList ∧
      collapseInvalid ("ab<<>cd".toList) =
        collapseInvalid ("ab".toList) ++ '_' :: collapseInvalid ("cd".toList) :=
  ⟨by decide,
    (C4_sanitizer_properties "ab<<>cd".toList).2.2.2.2.2 "ab".toList "<<>".toList
      "cd".toList (by decide) (by decide) (by decide)
      (fun h => by
        have hg : ("ab".toList).getLast h = 'b' := rfl
        rw [hg]
        decide)
      (fun c hc => by
        have h1 : c = 'c' := by simpa using hc.symm
        subst h1
        decide)⟩

/-- Decoding a digit character yields the digit. -/
theorem decode_digitChar {d : Nat} (h : d < 10) : (Nat.digitChar d).toNat - 48 = d := by
  interval_cases d <;> decide

/-- The decimal rendering decodes back to its input: `natReprAux` is
correct (and hence injective). -/
theorem decode_natReprAux : ∀ (fuel n : Nat), n < fuel →
    decodeDigits (natReprAux fuel n) = n := by
  intro fuel
  induction fuel with
  | zero =>
    intro n hn
    omega
  | succ f ih =>
    intro n hn
    by_cases h10 : n < 10
    · rw [natReprAux, if_pos h10]
      simp [decodeDigits, decodeDigitsRev, decode_digitChar h10]
    · rw [natReprAux, if_neg h10]
      have hdiv : n / 10 < f := by omega
      have ihd := ih (n / 10) hdiv
      have hmod : n % 10 < 10 := Nat.mod_lt n (by omega)
      simp only [decodeDigits, List.reverse_append, List.reverse_cons,
        List.reverse_nil, List.nil_append, List.singleton_append,
        decodeDigitsRev, decode_digitChar hmod]
      unfold decodeDigits at ihd
      rw [ihd]
      omega

/-- The decimal rendering is injective. -/
theorem natRepr_inj : ∀ (m n : Nat), natRepr m = natRepr n → m = n := by
  intro m n h
  have hm := decode_natReprAux (m + 1) m (Nat.lt_succ_self m)
  have hn := decode_natReprAux (n + 1) n (Nat.lt_succ_self n)
  unfold natRepr at h
  rw [h, hn] at hm
  exact hm.symm

/-- Distinct counters give distinct candidate file names. -/
theorem fileNameWith_inj (base ext : Name) :
    ∀ (j k : Nat), fileNameWith base ext j = fileNameWith base ext k → j = k := by
  intro j k h
  unfold fileNameWith at h
  have h1 := List.append_cancel_left h
  injection h1 with _ h2
  exact natRepr_inj j k (List.append_cancel_right h2)

/-- If all counters `1 .. k-1` name existing files, the directory holds at
least `k - 1` files. -/
theorem busy_bound (files : List FsPath) (dir : FsPath) (base ext : Name) (k : Nat)
    (hbusy : ∀ j ∈ List.range' 1 (k - 1), dir ++ [fileNameWith base ext j] ∈ files) :
    k - 1 ≤ files.length := by
  have hinj : Function.Injective (fun j => dir ++ [fileNameWith base ext j]) := by
    intro a b hab
    have h1 := List.append_cancel_left hab
    injection h1 with h2 _
    exact fileNameWith_inj base ext a b h2
  have hnd : ((List.range' 1 (k - 1)).map
      (fun j => dir ++ [fileNameWith base ext j])).Nodup :=
    List.Nodup.map hinj (List.nodup_range' 1 (k - 1))
  have hsub : ((List.range' 1 (k - 1)).map
      (fun j => dir ++ [fileNameWith base ext j])) ⊆ files := by
    intro p hp
    rcases List.mem_map.mp hp with ⟨j, hj, rfl⟩
    exact hbusy j hj
  have hlen := (List.subperm_of_subset hnd hsub).length_le
  rw [List.length_map, List.length_range'] at hlen
  exact hlen

/-- As long as the fuel covers the remaining distance to the first free
counter, the collision loop returns exactly the first free candidate. -/
theorem collisionLoop_finds (files : List FsPath) (dir : FsPath) (base ext : Name)
    (k : Nat) (hfree : dir ++ [fileNameWith base ext k] ∉ files) :
    ∀ (fuel c : Nat) (cur : FsPath), c ≤ k → k + 2 ≤ fuel + c → cur ∈ files →
      (∀ j, c ≤ j → j < k → dir ++ [fileNameWith base ext j] ∈ files) →
      collisionLoop files dir base ext fuel c cur =
        dir ++ [fileNameWith base ext k] := by
  intro fuel
  induction fuel with
  | zero =>
    intro c cur hck hfuel hcur hbusy
    omega
  | succ f ih =>
    intro c cur hck hfuel hcur hbusy
    rw [collisionLoop, if_pos hcur]
    by_cases hc : c = k
    · subst hc
      cases f with
      | zero => omega
      | succ f₂ => rw [collisionLoop, if_neg hfree]
    · apply ih (c + 1) (dir ++ [fileNameWith base ext c])
      · omega
      · omega
      · exact hbusy c (le_refl c) (by omega)
      · intro j hj1 hj2
        exact hbusy j (by omega) hj2

/-- C3: if `dir/base.ext` exists, the counters `1 .. k-1` all name
existing files and counter `k` does not, the collision resolver returns
`dir/base_k.ext` — the first free candidate, counting up from 1. -/
theorem C3_collision_resolver (files : List FsPath) (dir : FsPath) (base ext : Name)
    (k : Nat) (hk : 1 ≤ k)
    (hplain : dir ++ [plainFileName base ext] ∈ files)
    (hbusy : ∀ j ∈ List.range' 1 (k - 1), dir ++ [fileNameWith base ext j] ∈ files)
    (hfree : dir ++ [fileNameWith base ext k] ∉ files) :
    resolveDest files dir base ext = dir ++ [fileNameWith base ext k] := by
  have hb : ∀ j, 1 ≤ j → j < k → dir ++ [fileNameWith base ext j] ∈ files := by
    intro j h1 h2
    apply hbusy
    rw [List.mem_range']
    exact ⟨j - 1, by omega, by omega⟩
  have hbound : k - 1 ≤ files.length := busy_bound files dir base ext k hbusy
  show (if dir ++ [plainFileName base ext] ∈ files then
      collisionLoop files dir base ext (files.length + 2) 1
        (dir ++ [plainFileName base ext])
    else dir ++ [plainFileName base ext]) = _
  rw [if_pos hplain]
  exact collisionLoop_finds files dir base ext k hfree (files.length + 2) 1 _
    hk (by omega) hplain hb

/-- C3 witness: with `a.mp3` and `a_1.mp3` present, the resolver returns
`a_2.mp3`. -/
theorem C3_collision_resolver_witness :
    resolveDest [[['d'], "a.mp3".toList], [['d'], "a_1.mp3".toList]] [['d']]
        ("a".toList) ("mp3".toList) = [['d'], "a_2.mp3".toList] :=
  C3_collision_resolver _ _ _ _ 2 (by decide) (by decide) (by decide) (by decide)

end FreeYtMusic
